import Mathlib

/-!
Verification of the deploy procedure in fabfile.py.

The source is a single fabric task, push(), consisting of ten fabric calls
(three kinds: a local shell command, a remote shell command, and a file
transfer), issued strictly in order with no branching.  We embed the call
list verbatim, give each command its standard filesystem effect on an
abstract deployment state, and model the fail-fast behaviour of fabric:
each command either completes with its effect or fails, and the first
failing command aborts the whole run with the process exiting non-zero.
-/

namespace PersonalSite

/-- A call to one of the three fabric primitives used by fabfile.py:
loc mirrors fabric local (run a shell command on the local machine),
run mirrors fabric run (run a shell command on the remote host), and
put mirrors fabric put (transfer a local file to a remote path). -/
inductive FabCall where
  | loc (cmd : String)
  | run (cmd : String)
  | put (src : String) (dst : String)
deriving DecidableEq

/-- The module-level value domain = 'harlanhaskins.com' in fabfile.py. -/
def domain : String := "harlanhaskins.com"

/-- The module-level value subdom = 'www' in fabfile.py. -/
def subdom : String := "www"

/-- The body of push() in fabfile.py, generalised over the two
configuration strings it interpolates (the Python percent-s formatting is
rendered as string concatenation).  The source itself always calls this
with the module-level domain and subdom values. -/
def pushWith (d sd : String) : List FabCall :=
  [ .loc "jekyll build"
  , .loc "zip -r _site _site"
  , .run ("rm -f /var/www/" ++ d ++ "/_site.zip")
  , .run ("rm -rf /var/www/" ++ d ++ "/_site")
  , .put "_site.zip" ("/var/www/" ++ d ++ "/_site.zip")
  , .loc "rm -rf _site"
  , .loc "rm _site.zip"
  , .run ("unzip /var/www/" ++ d ++ "/_site.zip -d /var/www/" ++ d)
  , .run ("rm -rf /var/www/" ++ d ++ "/" ++ sd)
  , .run ("mv /var/www/" ++ d ++ "/_site /var/www/" ++ d ++ "/" ++ sd)
  ]

/-- The ten fabric calls issued by push() in fabfile.py, in source order,
with the configuration values of the source. -/
def push : List FabCall := pushWith domain subdom

/-- Sanity: push with the hard-coded configuration is exactly these ten
literal shell commands. -/
theorem push_literal :
    push =
      [ .loc "jekyll build"
      , .loc "zip -r _site _site"
      , .run "rm -f /var/www/harlanhaskins.com/_site.zip"
      , .run "rm -rf /var/www/harlanhaskins.com/_site"
      , .put "_site.zip" "/var/www/harlanhaskins.com/_site.zip"
      , .loc "rm -rf _site"
      , .loc "rm _site.zip"
      , .run "unzip /var/www/harlanhaskins.com/_site.zip -d /var/www/harlanhaskins.com"
      , .run "rm -rf /var/www/harlanhaskins.com/www"
      , .run "mv /var/www/harlanhaskins.com/_site /var/www/harlanhaskins.com/www" ] := rfl

/-- The ten commands of push(), as named operations.  Each constructor
stands for one fabric call of the source; render maps it back to the
literal call. -/
inductive Op where
  | jekyllBuild
  | zipArchive
  | remoteRmZip
  | remoteRmSiteDir
  | putArchive
  | localRmSiteDir
  | localRmZip
  | remoteUnzip
  | remoteRmSubdom
  | remoteMvSite
deriving DecidableEq

/-- The fabric call an operation stands for, for configuration strings
d and sd. -/
def render (d sd : String) : Op → FabCall
  | .jekyllBuild => .loc "jekyll build"
  | .zipArchive => .loc "zip -r _site _site"
  | .remoteRmZip => .run ("rm -f /var/www/" ++ d ++ "/_site.zip")
  | .remoteRmSiteDir => .run ("rm -rf /var/www/" ++ d ++ "/_site")
  | .putArchive => .put "_site.zip" ("/var/www/" ++ d ++ "/_site.zip")
  | .localRmSiteDir => .loc "rm -rf _site"
  | .localRmZip => .loc "rm _site.zip"
  | .remoteUnzip => .run ("unzip /var/www/" ++ d ++ "/_site.zip -d /var/www/" ++ d)
  | .remoteRmSubdom => .run ("rm -rf /var/www/" ++ d ++ "/" ++ sd)
  | .remoteMvSite => .run ("mv /var/www/" ++ d ++ "/_site /var/www/" ++ d ++ "/" ++ sd)

/-- The operation sequence of push(), in source order. -/
def pushOps : List Op :=
  [ .jekyllBuild, .zipArchive, .remoteRmZip, .remoteRmSiteDir, .putArchive
  , .localRmSiteDir, .localRmZip, .remoteUnzip, .remoteRmSubdom, .remoteMvSite ]

/-- Rendering the operation sequence recovers the call list of the source
verbatim, for every configuration. -/
theorem render_pushOps (d sd : String) : pushOps.map (render d sd) = pushWith d sd := rfl

/-- The eight steps of the workflow in section 2 of the spec, each given
as the commands of push() that realise it: 1 local build, 2 local archive,
3 remote pre-clean (stale archive, then stale extracted directory),
4 transfer, 5 local cleanup (output directory, then archive), 6 remote
extract, 7 delete of the old subdomain directory, 8 rename into the
subdomain directory. -/
def specSteps : List (List Op) :=
  [ [.jekyllBuild]
  , [.zipArchive]
  , [.remoteRmZip, .remoteRmSiteDir]
  , [.putArchive]
  , [.localRmSiteDir, .localRmZip]
  , [.remoteUnzip]
  , [.remoteRmSubdom]
  , [.remoteMvSite] ]

/-- The spec step (1 to 8) a command of push() belongs to, for 1-based
command index i. -/
def stepOf (i : Nat) : Nat := [1, 2, 3, 3, 4, 5, 5, 6, 7, 8].getD (i - 1) 0

/-- The deployment state the procedure manipulates: the local build output
directory _site, the local archive _site.zip, and the three remote paths
under /var/www/domain that the commands touch (the archive _site.zip, the
extracted directory _site, and the live subdomain directory).  A value
some c means the file or directory exists with contents c (contents are
abstracted to a natural number); none means it does not exist. -/
structure DeployState where
  localSite : Option Nat
  localZip : Option Nat
  remoteZip : Option Nat
  remoteSite : Option Nat
  remoteSub : Option Nat
deriving DecidableEq

/-- The effect of one command when it succeeds, with b the contents the
local build produces.  jekyll build writes the output directory; zip
archives it; rm deletes its target; put copies the local archive to the
remote path; unzip recreates the _site directory from the remote archive;
mv renames _site onto the subdomain path (its destination was removed by
the preceding command, so the rename semantics of mv applies). -/
def applyOp (b : Nat) : Op → DeployState → DeployState
  | .jekyllBuild, s => { s with localSite := some b }
  | .zipArchive, s => { s with localZip := s.localSite }
  | .remoteRmZip, s => { s with remoteZip := none }
  | .remoteRmSiteDir, s => { s with remoteSite := none }
  | .putArchive, s => { s with remoteZip := s.localZip }
  | .localRmSiteDir, s => { s with localSite := none }
  | .localRmZip, s => { s with localZip := none }
  | .remoteUnzip, s => { s with remoteSite := s.remoteZip }
  | .remoteRmSubdom, s => { s with remoteSub := none }
  | .remoteMvSite, s => { s with remoteSub := s.remoteSite, remoteSite := none }

/-- Apply the effects of a list of commands in order. -/
def applyOps (b : Nat) (ops : List Op) (s : DeployState) : DeployState :=
  ops.foldl (fun t op => applyOp b op t) s

/-- Outcome of a run: success with the final state, or abort at the
1-based index of the first failing command, with the state at that
moment (a failing command has no effect, and fabric aborts the whole
procedure at the first failure). -/
inductive RunResult where
  | success (final : DeployState)
  | failed (idx : Nat) (final : DeployState)
deriving DecidableEq

/-- Exit code of the process: fabric exits 0 on success and aborts with a
non-zero code (1) at the first failing command. -/
def exitCode : RunResult → Nat
  | .success _ => 0
  | .failed _ _ => 1

/-- Execute commands in order starting at 1-based index i, consulting the
failure oracle before each command: fail j = true means the j-th command
of the run fails. -/
def runFrom (b : Nat) (fail : Nat → Bool) : List Op → Nat → DeployState → RunResult
  | [], _, s => .success s
  | op :: rest, i, s =>
      if fail i then .failed i s
      else runFrom b fail rest (i + 1) (applyOp b op s)

/-- One run of push(): execute its ten commands in order, aborting at the
first failure. -/
def runPush (b : Nat) (fail : Nat → Bool) (s : DeployState) : RunResult :=
  runFrom b fail pushOps 1 s

/-- The commands a run actually executes (in order), given the failure
oracle: everything strictly before the first failing index. -/
def traceFrom (fail : Nat → Bool) : List Op → Nat → List Op
  | [], _ => []
  | op :: rest, i => if fail i then [] else op :: traceFrom fail rest (i + 1)

/-- The commands one run of push() executes, in order. -/
def pushTrace (fail : Nat → Bool) : List Op := traceFrom fail pushOps 1

/-- Characterisation of runFrom: either some command fails, and the run
aborts at the first failing index with exactly the effects of the
preceding commands applied, or no command fails and every effect applies
in order. -/
theorem runFrom_spec (b : Nat) (fail : Nat → Bool) :
    ∀ (ops : List Op) (i : Nat) (s : DeployState),
      (∃ k, k < ops.length ∧ fail (i + k) = true ∧
        (∀ m, m < k → fail (i + m) = false) ∧
        runFrom b fail ops i s = .failed (i + k) (applyOps b (ops.take k) s) ∧
        traceFrom fail ops i = ops.take k) ∨
      ((∀ m, m < ops.length → fail (i + m) = false) ∧
        runFrom b fail ops i s = .success (applyOps b ops s) ∧
        traceFrom fail ops i = ops) := by
  intro ops
  induction ops with
  | nil =>
      intro i s
      exact Or.inr ⟨fun m hm => absurd hm (Nat.not_lt_zero m), rfl, rfl⟩
  | cons op rest ih =>
      intro i s
      by_cases h : fail i = true
      · refine Or.inl ⟨0, Nat.succ_pos _, by simpa using h,
          fun m hm => absurd hm (Nat.not_lt_zero m), ?_, ?_⟩
        · simp [runFrom, h, applyOps]
        · simp [traceFrom, h]
      · have h0 : fail i = false := by simpa using h
        rcases ih (i + 1) (applyOp b op s) with ⟨k, hk, hf, hprev, hrun, htr⟩ |
          ⟨hall, hrun, htr⟩
        · refine Or.inl ⟨k + 1, Nat.succ_lt_succ hk, ?_, ?_, ?_, ?_⟩
          · have e : i + (k + 1) = i + 1 + k := by omega
            rw [e]; exact hf
          · intro m hm
            cases m with
            | zero => simpa using h0
            | succ m' =>
                have e : i + (m' + 1) = i + 1 + m' := by omega
                rw [e]; exact hprev m' (Nat.lt_of_succ_lt_succ hm)
          · have e : i + (k + 1) = i + 1 + k := by omega
            calc runFrom b fail (op :: rest) i s
                = runFrom b fail rest (i + 1) (applyOp b op s) := by
                  simp [runFrom, h0]
              _ = .failed (i + 1 + k) (applyOps b (rest.take k) (applyOp b op s)) := hrun
              _ = .failed (i + (k + 1)) (applyOps b ((op :: rest).take (k + 1)) s) := by
                  rw [e]
                  show RunResult.failed (i + 1 + k) (applyOps b (rest.take k) (applyOp b op s)) =
                    RunResult.failed (i + 1 + k) (applyOps b (op :: rest.take k) s)
                  rfl
          · calc traceFrom fail (op :: rest) i
                = op :: traceFrom fail rest (i + 1) := by simp [traceFrom, h0]
              _ = op :: rest.take k := by rw [htr]
              _ = (op :: rest).take (k + 1) := rfl
        · refine Or.inr ⟨?_, ?_, ?_⟩
          · intro m hm
            cases m with
            | zero => simpa using h0
            | succ m' =>
                have hm' : m' < rest.length := by
                  simp only [List.length_cons] at hm
                  omega
                have e : i + (m' + 1) = i + 1 + m' := by omega
                rw [e]; exact hall m' hm'
          · calc runFrom b fail (op :: rest) i s
                = runFrom b fail rest (i + 1) (applyOp b op s) := by
                  simp [runFrom, h0]
              _ = .success (applyOps b rest (applyOp b op s)) := hrun
              _ = .success (applyOps b (op :: rest) s) := rfl
          · calc traceFrom fail (op :: rest) i
                = op :: traceFrom fail rest (i + 1) := by simp [traceFrom, h0]
              _ = op :: rest := by rw [htr]

/-- Characterisation of one run of push(): either it succeeds with every
command applied in order, or it aborts at the first failing command index
i (between 1 and 10) having applied exactly the first i - 1 commands. -/
theorem runPush_cases (b : Nat) (fail : Nat → Bool) (s : DeployState) :
    (∃ i, 1 ≤ i ∧ i ≤ 10 ∧ fail i = true ∧
      (∀ j, 1 ≤ j → j < i → fail j = false) ∧
      runPush b fail s = .failed i (applyOps b (pushOps.take (i - 1)) s) ∧
      pushTrace fail = pushOps.take (i - 1)) ∨
    ((∀ j, 1 ≤ j → j ≤ 10 → fail j = false) ∧
      runPush b fail s = .success (applyOps b pushOps s) ∧
      pushTrace fail = pushOps) := by
  have hlen : pushOps.length = 10 := rfl
  rcases runFrom_spec b fail pushOps 1 s with ⟨k, hk, hf, hprev, hrun, htr⟩ |
    ⟨hall, hrun, htr⟩
  · rw [hlen] at hk
    refine Or.inl ⟨1 + k, by omega, by omega, hf, ?_, ?_, ?_⟩
    · intro j h1 hj
      have e : j = 1 + (j - 1) := by omega
      rw [e]; exact hprev (j - 1) (by omega)
    · have e : 1 + k - 1 = k := by omega
      rw [e]; exact hrun
    · have e : 1 + k - 1 = k := by omega
      rw [e]; exact htr
  · refine Or.inr ⟨?_, hrun, htr⟩
    intro j h1 hj
    have e : j = 1 + (j - 1) := by omega
    rw [e]; exact hall (j - 1) (by rw [hlen]; omega)

/-- A run of push() with no failing command ends in the same final state
from every starting state: local artifacts gone, the remote archive and
the live subdomain directory holding the freshly built contents. -/
theorem applyOps_push (b : Nat) (s : DeployState) :
    applyOps b pushOps s = ⟨none, none, some b, none, some b⟩ := rfl

/-- The deployment path as the glossary of the spec defines it:
remote web root, then domain, then subdomain. -/
def specDeploymentPath (d sd : String) : String := "/var/www/" ++ d ++ "/" ++ sd

/-- Whether a fabric call is a file transfer. -/
def FabCall.isPut : FabCall → Bool
  | .put _ _ => true
  | _ => false

/-- Claim C1: push executes exactly the eight workflow steps of the spec,
realised by its ten commands, in strict sequential order with no step
skipped or reordered: the eight step groups (build, archive, remote
pre-clean, transfer, local cleanup, extract, delete subdomain, rename)
concatenate in that order to the command sequence of the source, that
sequence renders verbatim to the fabric calls of fabfile.py, and a
failure-free run executes exactly that sequence in order and succeeds. -/
theorem push_eight_steps_strict_order (b : Nat) (s : DeployState) :
    specSteps.flatten = pushOps ∧
    pushOps.map (render domain subdom) = push ∧
    pushTrace (fun _ => false) = pushOps ∧
    runPush b (fun _ => false) s = .success (applyOps b pushOps s) :=
  ⟨rfl, rfl, rfl, rfl⟩

/-- Claim C2 counterexample: in the source, the archive is transferred to
/var/www/harlanhaskins.com/_site.zip, which is not the claimed
destination /var/www/harlanhaskins.com/www/_site.zip under the
deployment path: the actual destination lacks the subdomain segment. -/
theorem put_destination_not_under_subdomain :
    push.get? 4 = some (.put "_site.zip" "/var/www/harlanhaskins.com/_site.zip") ∧
    "/var/www/harlanhaskins.com/_site.zip" ≠
      specDeploymentPath domain subdom ++ "/_site.zip" := by
  refine ⟨rfl, ?_⟩
  decide

/-- Claim C2 amended: the transfer step copies the local archive to
/var/www/domain/_site.zip, directly under the domain directory rather
than under the subdomain directory.  For every configuration, the fifth
command of push is that put, and it is the only file transfer of the
run. -/
theorem put_destination_domain_level (d sd : String) :
    (pushWith d sd).get? 4 =
      some (.put "_site.zip" ("/var/www/" ++ d ++ "/_site.zip")) ∧
    (pushWith d sd).filter FabCall.isPut =
      [.put "_site.zip" ("/var/www/" ++ d ++ "/_site.zip")] := ⟨rfl, rfl⟩

/-- Claim C5: if the local build (command 1, spec step 1) fails, the run
aborts immediately: no command at all is executed, in particular no
remote command and no file transfer, the state is untouched, and the
process exits non-zero. -/
theorem build_failure_runs_nothing (b : Nat) (fail : Nat → Bool) (s : DeployState)
    (h : fail 1 = true) :
    runPush b fail s = .failed 1 s ∧ pushTrace fail = [] ∧
    exitCode (runPush b fail s) ≠ 0 := by
  have h1 : runPush b fail s = .failed 1 s := by
    simp [runPush, pushOps, runFrom, h]
  have h2 : pushTrace fail = [] := by
    simp [pushTrace, pushOps, traceFrom, h]
  refine ⟨h1, h2, ?_⟩
  rw [h1]
  simp [exitCode]

/-- Witness for C5: a concrete run whose first command fails, from a
state holding an existing deployment. -/
theorem build_failure_runs_nothing_witness :
    runPush 3 (fun _ => true) ⟨none, none, some 1, none, some 2⟩ =
      .failed 1 ⟨none, none, some 1, none, some 2⟩ ∧
    pushTrace (fun _ => true) = [] ∧
    exitCode (runPush 3 (fun _ => true) ⟨none, none, some 1, none, some 2⟩) ≠ 0 :=
  build_failure_runs_nothing 3 (fun _ => true) ⟨none, none, some 1, none, some 2⟩ rfl

/-- None of the first eight commands of push() touches the live
subdomain directory. -/
theorem remoteSub_untouched_first_eight (b : Nat) (s : DeployState) :
    ∀ n, n ≤ 8 → (applyOps b (pushOps.take n) s).remoteSub = s.remoteSub := by
  intro n hn
  interval_cases n <;> rfl

/-- Claim C3: the live subdomain directory is replaced only by the final
delete-then-rename pair, after the extract has fully completed: the first
eight commands leave the live path untouched, the ninth (the delete)
empties it, and only the tenth (the rename) publishes the fully extracted
build — never a partial tree, since the extract finished two commands
earlier.  Moreover a run failing at or before the ninth command (any
failure before the final rename) leaves the previously deployed
subdomain directory exactly as it was before the run. -/
theorem subdomain_replaced_only_by_final_rename (b : Nat) (fail : Nat → Bool)
    (s : DeployState) :
    (∀ n, n ≤ 8 → (applyOps b (pushOps.take n) s).remoteSub = s.remoteSub) ∧
    (applyOps b (pushOps.take 9) s).remoteSub = none ∧
    (applyOps b (pushOps.take 10) s).remoteSub = some b ∧
    (∀ i s', runPush b fail s = .failed i s' → i ≤ 9 →
      s'.remoteSub = s.remoteSub) := by
  refine ⟨remoteSub_untouched_first_eight b s, rfl, rfl, ?_⟩
  intro i s' h hi
  rcases runPush_cases b fail s with ⟨j, hj1, hj10, _, _, hrun, _⟩ | ⟨_, hrun, _⟩
  · have e := h.symm.trans hrun
    injection e with ei es
    subst ei
    subst es
    exact remoteSub_untouched_first_eight b s (i - 1) (by omega)
  · exact RunResult.noConfusion (h.symm.trans hrun)

/-- Witness for C3: a run whose ninth command (the delete of the old
subdomain directory) fails, starting from a state with an old deployment:
the old deployment survives. -/
theorem subdomain_replaced_only_by_final_rename_witness :
    (applyOps 1 (pushOps.take 8) ⟨none, none, none, none, some 7⟩).remoteSub =
      (⟨none, none, none, none, some 7⟩ : DeployState).remoteSub ∧
    (⟨none, none, some 1, some 1, some 7⟩ : DeployState).remoteSub =
      (⟨none, none, none, none, some 7⟩ : DeployState).remoteSub :=
  ⟨(subdomain_replaced_only_by_final_rename 1 (fun i => i == 9)
      ⟨none, none, none, none, some 7⟩).1 8 (by decide),
   (subdomain_replaced_only_by_final_rename 1 (fun i => i == 9)
      ⟨none, none, none, none, some 7⟩).2.2.2 9
      ⟨none, none, some 1, some 1, some 7⟩ rfl (by decide)⟩

/-- Claim C4: if the transfer (command 5, spec step 4) fails, then the
live deployment path is unchanged from its pre-run state, and the local
cleanup has not yet run: the local archive and the build output both
still exist, exactly the first four commands were executed, and neither
local deletion command was among them. -/
theorem transfer_failure_preserves_remote (b : Nat) (fail : Nat → Bool)
    (s : DeployState) :
    ∀ s', runPush b fail s = .failed 5 s' →
      s'.remoteSub = s.remoteSub ∧ s'.localZip = some b ∧ s'.localSite = some b ∧
      pushTrace fail = pushOps.take 4 ∧
      Op.localRmZip ∉ pushTrace fail ∧ Op.localRmSiteDir ∉ pushTrace fail := by
  intro s' h
  rcases runPush_cases b fail s with ⟨j, _, _, _, _, hrun, htr⟩ | ⟨_, hrun, _⟩
  · have e := h.symm.trans hrun
    injection e with ei es
    subst ei
    subst es
    refine ⟨rfl, rfl, rfl, htr, ?_, ?_⟩
    · rw [htr]; decide
    · rw [htr]; decide
  · exact RunResult.noConfusion (h.symm.trans hrun)

/-- Witness for C4: a run whose fifth command (the transfer) fails,
starting from a state with a stale remote archive, a stale extracted
directory and an old deployment: the old deployment survives and both
local artifacts remain. -/
theorem transfer_failure_preserves_remote_witness :
    (⟨some 2, some 2, none, none, some 7⟩ : DeployState).remoteSub =
      (⟨none, none, some 9, some 8, some 7⟩ : DeployState).remoteSub ∧
    (⟨some 2, some 2, none, none, some 7⟩ : DeployState).localZip = some 2 ∧
    (⟨some 2, some 2, none, none, some 7⟩ : DeployState).localSite = some 2 ∧
    pushTrace (fun i => i == 5) = pushOps.take 4 ∧
    Op.localRmZip ∉ pushTrace (fun i => i == 5) ∧
    Op.localRmSiteDir ∉ pushTrace (fun i => i == 5) :=
  transfer_failure_preserves_remote 2 (fun i => i == 5)
    ⟨none, none, some 9, some 8, some 7⟩
    ⟨some 2, some 2, none, none, some 7⟩ rfl

/-- Claim C6: fail-fast over the eight spec steps: when the run aborts at
command i, the process exits non-zero and exactly the commands strictly
before i were executed, so every command belonging to a later spec step
than the failing one (stepOf strictly larger) lies beyond the executed
prefix; when every command completes, the process exits zero. -/
theorem fail_fast_exit_behavior (b : Nat) (fail : Nat → Bool) (s : DeployState) :
    (∀ i s', runPush b fail s = .failed i s' →
      exitCode (runPush b fail s) ≠ 0 ∧
      pushTrace fail = pushOps.take (i - 1) ∧
      (∀ j, j ≤ 10 → stepOf i < stepOf j → i - 1 < j)) ∧
    (∀ s', runPush b fail s = .success s' →
      exitCode (runPush b fail s) = 0 ∧ pushTrace fail = pushOps) := by
  constructor
  · intro i s' h
    rcases runPush_cases b fail s with ⟨j, hj1, hj10, _, _, hrun, htr⟩ | ⟨_, hrun, _⟩
    · have e := h.symm.trans hrun
      injection e with ei es
      subst ei
      refine ⟨by rw [h]; simp [exitCode], htr, ?_⟩
      intro k hk
      interval_cases i <;> interval_cases k <;> decide
    · exact RunResult.noConfusion (h.symm.trans hrun)
  · intro s' h
    refine ⟨by rw [h]; simp [exitCode], ?_⟩
    rcases runPush_cases b fail s with ⟨j, _, _, _, _, hrun, _⟩ | ⟨_, _, htr⟩
    · exact RunResult.noConfusion (hrun.symm.trans h)
    · exact htr

/-- Witness for C6: a run failing at the third command exits non-zero
and never reaches command 9 (spec step 7), and a failure-free run exits
zero. -/
theorem fail_fast_exit_behavior_witness :
    exitCode (runPush 0 (fun i => i == 3) ⟨none, none, none, none, none⟩) ≠ 0 ∧
    (2 : Nat) < 9 ∧
    exitCode (runPush 0 (fun _ => false) ⟨none, none, none, none, none⟩) = 0 :=
  ⟨((fail_fast_exit_behavior 0 (fun i => i == 3) ⟨none, none, none, none, none⟩).1
      3 ⟨some 0, some 0, none, none, none⟩ rfl).1,
   ((fail_fast_exit_behavior 0 (fun i => i == 3) ⟨none, none, none, none, none⟩).1
      3 ⟨some 0, some 0, none, none, none⟩ rfl).2.2 9 (by decide) (by decide),
   ((fail_fast_exit_behavior 0 (fun _ => false) ⟨none, none, none, none, none⟩).2
      ⟨none, none, some 0, none, some 0⟩ rfl).1⟩

/-- Claim C7: idempotence: two successive successful runs with the same
build contents and no external change in between leave the same final
remote contents both times, because each run deletes stale remote
artifacts before recreating them. -/
theorem push_idempotent (b : Nat) (f1 f2 : Nat → Bool) (s s1 s2 : DeployState)
    (h1 : runPush b f1 s = .success s1) (h2 : runPush b f2 s1 = .success s2) :
    s2.remoteZip = s1.remoteZip ∧ s2.remoteSite = s1.remoteSite ∧
    s2.remoteSub = s1.remoteSub := by
  have e1 : s1 = ⟨none, none, some b, none, some b⟩ := by
    rcases runPush_cases b f1 s with ⟨j, _, _, _, _, hrun, _⟩ | ⟨_, hrun, _⟩
    · exact RunResult.noConfusion (hrun.symm.trans h1)
    · have e := hrun.symm.trans h1
      injection e with e
      rw [← e, applyOps_push]
  have e2 : s2 = ⟨none, none, some b, none, some b⟩ := by
    rcases runPush_cases b f2 s1 with ⟨j, _, _, _, _, hrun, _⟩ | ⟨_, hrun, _⟩
    · exact RunResult.noConfusion (hrun.symm.trans h2)
    · have e := hrun.symm.trans h2
      injection e with e
      rw [← e, applyOps_push]
  rw [e1, e2]
  exact ⟨rfl, rfl, rfl⟩

/-- Witness for C7: two failure-free runs from a dirty starting state
end in identical remote contents. -/
theorem push_idempotent_witness :
    (⟨none, none, some 3, none, some 3⟩ : DeployState).remoteZip =
      (⟨none, none, some 3, none, some 3⟩ : DeployState).remoteZip ∧
    (⟨none, none, some 3, none, some 3⟩ : DeployState).remoteSite =
      (⟨none, none, some 3, none, some 3⟩ : DeployState).remoteSite ∧
    (⟨none, none, some 3, none, some 3⟩ : DeployState).remoteSub =
      (⟨none, none, some 3, none, some 3⟩ : DeployState).remoteSub :=
  push_idempotent 3 (fun _ => false) (fun _ => false)
    ⟨some 1, some 2, some 9, some 8, some 7⟩
    ⟨none, none, some 3, none, some 3⟩ ⟨none, none, some 3, none, some 3⟩ rfl rfl

/-- Claim C8 counterexample: a run whose first command (the build, a
failure before the local-cleanup step, which is spec step 5) fails,
starting from a clean checkout, ends with no local archive and no local
output directory, so the claim that both are left in place on any such
failure is false. -/
theorem local_artifacts_counterexample :
    runPush 0 (fun i => i == 1) ⟨none, none, none, none, none⟩ =
      .failed 1 ⟨none, none, none, none, none⟩ ∧
    stepOf 1 < 5 ∧
    (⟨none, none, none, none, none⟩ : DeployState).localZip = none ∧
    (⟨none, none, none, none, none⟩ : DeployState).localSite = none :=
  ⟨rfl, by decide, rfl, rfl⟩

/-- Claim C8 amended: on full success neither the local output directory
nor the local archive exists any more; a failure before the local-cleanup
step (at one of the first five commands) deletes no local file — every
local artifact that existed still exists — and when the failure comes
after the archive step completed (command index at least 3), both the
output directory and the archive are present. -/
theorem local_cleanup_invariant (b : Nat) (fail : Nat → Bool) (s : DeployState) :
    (∀ s', runPush b fail s = .success s' →
      s'.localSite = none ∧ s'.localZip = none) ∧
    (∀ i s', runPush b fail s = .failed i s' → i ≤ 5 →
      (s.localSite.isSome = true → s'.localSite.isSome = true) ∧
      (s.localZip.isSome = true → s'.localZip.isSome = true) ∧
      (3 ≤ i → s'.localSite = some b ∧ s'.localZip = some b)) := by
  constructor
  · intro s' h
    rcases runPush_cases b fail s with ⟨j, _, _, _, _, hrun, _⟩ | ⟨_, hrun, _⟩
    · exact RunResult.noConfusion (hrun.symm.trans h)
    · have e := hrun.symm.trans h
      injection e with e
      rw [← e, applyOps_push]
      exact ⟨rfl, rfl⟩
  · intro i s' h hi
    rcases runPush_cases b fail s with ⟨j, hj1, hj10, _, _, hrun, _⟩ | ⟨_, hrun, _⟩
    · have e := h.symm.trans hrun
      injection e with ei es
      subst ei
      subst es
      interval_cases i
      · exact ⟨fun hh => hh, fun hh => hh, fun hh => absurd hh (by decide)⟩
      · exact ⟨fun _ => rfl, fun hh => hh, fun hh => absurd hh (by decide)⟩
      · exact ⟨fun _ => rfl, fun _ => rfl, fun _ => ⟨rfl, rfl⟩⟩
      · exact ⟨fun _ => rfl, fun _ => rfl, fun _ => ⟨rfl, rfl⟩⟩
      · exact ⟨fun _ => rfl, fun _ => rfl, fun _ => ⟨rfl, rfl⟩⟩
    · exact RunResult.noConfusion (h.symm.trans hrun)

/-- Witness for C8: a failure-free run removes both local artifacts, and
a run whose transfer (command 5) fails keeps both. -/
theorem local_cleanup_invariant_witness :
    ((⟨none, none, some 4, none, some 4⟩ : DeployState).localSite = none ∧
     (⟨none, none, some 4, none, some 4⟩ : DeployState).localZip = none) ∧
    ((⟨some 4, some 4, none, none, some 7⟩ : DeployState).localSite = some 4 ∧
     (⟨some 4, some 4, none, none, some 7⟩ : DeployState).localZip = some 4) :=
  ⟨(local_cleanup_invariant 4 (fun _ => false) ⟨none, none, none, none, some 7⟩).1
      ⟨none, none, some 4, none, some 4⟩ rfl,
   ((local_cleanup_invariant 4 (fun i => i == 5) ⟨none, none, none, none, some 7⟩).2
      5 ⟨some 4, some 4, none, none, some 7⟩ rfl (by decide)).2.2 (by decide)⟩

/-- Claim C9: a stale remote archive existing before the run is deleted
by the pre-clean (command 3) strictly before the transfer (command 5): in
the command order the deletion precedes the put, and the remote archive
path is empty right after the pre-clean and still empty at the moment the
transfer starts, so the transfer cannot hit an existing file. -/
theorem stale_archive_deleted_before_transfer (b c : Nat) (s : DeployState)
    (_hstale : s.remoteZip = some c) :
    (applyOps b (pushOps.take 3) s).remoteZip = none ∧
    (applyOps b (pushOps.take 4) s).remoteZip = none ∧
    pushOps.indexOf Op.remoteRmZip < pushOps.indexOf Op.putArchive :=
  ⟨rfl, rfl, by decide⟩

/-- Witness for C9: a run over a remote state holding a stale archive. -/
theorem stale_archive_deleted_before_transfer_witness :
    (applyOps 1 (pushOps.take 3) ⟨none, none, some 5, none, none⟩).remoteZip = none ∧
    (applyOps 1 (pushOps.take 4) ⟨none, none, some 5, none, none⟩).remoteZip = none ∧
    pushOps.indexOf Op.remoteRmZip < pushOps.indexOf Op.putArchive :=
  stale_archive_deleted_before_transfer 1 5 ⟨none, none, some 5, none, none⟩ rfl

/-- Claim C10: after a fully successful run the transferred archive is
still on the remote host at /var/www/domain/_site.zip, holding the
freshly built contents: no command from the extract onwards (commands 8,
9, 10) changes the remote archive, and it is the pre-clean of a
subsequent run that removes it. -/
theorem remote_archive_persists (b : Nat) (fail : Nat → Bool) (s : DeployState) :
    (∀ s', runPush b fail s = .success s' →
      s'.remoteZip = some b ∧
      (applyOps b (pushOps.take 3) s').remoteZip = none) ∧
    (∀ op ∈ pushOps.drop 7, ∀ t, (applyOp b op t).remoteZip = t.remoteZip) := by
  constructor
  · intro s' h
    rcases runPush_cases b fail s with ⟨j, _, _, _, _, hrun, _⟩ | ⟨_, hrun, _⟩
    · exact RunResult.noConfusion (hrun.symm.trans h)
    · have e := hrun.symm.trans h
      injection e with e
      rw [← e, applyOps_push]
      exact ⟨rfl, rfl⟩
  · intro op hop t
    fin_cases hop <;> rfl

/-- Witness for C10: a failure-free run ends with the archive still on
the remote host, and the extract command leaves it untouched. -/
theorem remote_archive_persists_witness :
    ((⟨none, none, some 6, none, some 6⟩ : DeployState).remoteZip = some 6 ∧
     (applyOps 6 (pushOps.take 3) ⟨none, none, some 6, none, some 6⟩).remoteZip =
       none) ∧
    (applyOp 6 Op.remoteUnzip ⟨none, none, some 6, none, some 6⟩).remoteZip =
      (⟨none, none, some 6, none, some 6⟩ : DeployState).remoteZip :=
  ⟨(remote_archive_persists 6 (fun _ => false) ⟨some 1, none, none, none, none⟩).1
      ⟨none, none, some 6, none, some 6⟩ rfl,
   (remote_archive_persists 6 (fun _ => false) ⟨some 1, none, none, none, none⟩).2
      Op.remoteUnzip (by decide) ⟨none, none, some 6, none, some 6⟩⟩

end PersonalSite
